import Mathlib

/-!
Verification of the spatial geometry model and layer-group synchronization
engine of the dwv medical-image viewer (files: image geometry classes,
layer-group class, orientation helpers).

Conventions of the shallow embedding:
* JavaScript numbers are modelled by exact rationals.  All claims settled
  here only compare, add, multiply and divide numbers that stay exact in
  the source computations, so the rational model is faithful on the
  considered domain.
* Fallible code (a JS throw) is modelled with Option or Except: a none or
  an error value is a thrown exception.
* The math value classes (Point3D, Vector3D, Matrix33, the array-based
  Size) are not part of the sources at hand, only their callers are; the
  definitions below marked with a remark that they are modelled from the
  spec follow the specification text for the missing class.
-/

/-- A 3D point or vector with rational coordinates (Point3D / Vector3D).
Modelled from the spec: coordinate tuples with component access,
subtraction and distance. -/
structure Vec3 where
  x : ℚ
  y : ℚ
  z : ℚ
deriving DecidableEq, Repr

namespace Vec3

/-- Component-wise subtraction: point.minus(other). -/
def minus (a b : Vec3) : Vec3 := ⟨a.x - b.x, a.y - b.y, a.z - b.z⟩

/-- Dot product of two vectors: a.dotProduct(b). -/
def dotProduct (a b : Vec3) : ℚ := a.x * b.x + a.y * b.y + a.z * b.z

/-- Squared Euclidean distance.  The source getDistance computes the
square root of this value; the code only ever compares distances with
each other and the square root is strictly monotone on nonnegative
arguments, so comparisons of this quantity and of the source's distances
agree. -/
def distSq (a b : Vec3) : ℚ :=
  (a.x - b.x) * (a.x - b.x) + (a.y - b.y) * (a.y - b.y) +
    (a.z - b.z) * (a.z - b.z)

end Vec3

/-- 3x3 rational matrix (Matrix33).  Modelled from the spec: a 3x3 real
matrix supporting inversion, multiplication, one-and-zeros
simplification and absolute-value variants. -/
structure Mat3 where
  m00 : ℚ
  m01 : ℚ
  m02 : ℚ
  m10 : ℚ
  m11 : ℚ
  m12 : ℚ
  m20 : ℚ
  m21 : ℚ
  m22 : ℚ
deriving DecidableEq, Repr

namespace Mat3

/-- The 3x3 identity matrix (getIdentityMat33). -/
def identity : Mat3 := ⟨1, 0, 0, 0, 1, 0, 0, 0, 1⟩

/-- Matrix product: a.multiply(b).  Modelled from the spec. -/
def multiply (a b : Mat3) : Mat3 :=
  ⟨a.m00 * b.m00 + a.m01 * b.m10 + a.m02 * b.m20,
   a.m00 * b.m01 + a.m01 * b.m11 + a.m02 * b.m21,
   a.m00 * b.m02 + a.m01 * b.m12 + a.m02 * b.m22,
   a.m10 * b.m00 + a.m11 * b.m10 + a.m12 * b.m20,
   a.m10 * b.m01 + a.m11 * b.m11 + a.m12 * b.m21,
   a.m10 * b.m02 + a.m11 * b.m12 + a.m12 * b.m22,
   a.m20 * b.m00 + a.m21 * b.m10 + a.m22 * b.m20,
   a.m20 * b.m01 + a.m21 * b.m11 + a.m22 * b.m21,
   a.m20 * b.m02 + a.m21 * b.m12 + a.m22 * b.m22⟩

/-- Component-wise absolute value: a.getAbs().  Modelled from the spec. -/
def getAbs (a : Mat3) : Mat3 :=
  ⟨|a.m00|, |a.m01|, |a.m02|, |a.m10|, |a.m11|, |a.m12|,
   |a.m20|, |a.m21|, |a.m22|⟩

/-- Determinant. -/
def det (a : Mat3) : ℚ :=
  a.m00 * (a.m11 * a.m22 - a.m12 * a.m21) -
    a.m01 * (a.m10 * a.m22 - a.m12 * a.m20) +
    a.m02 * (a.m10 * a.m21 - a.m11 * a.m20)

/-- Matrix inverse: a.getInverse().  Modelled from the spec: inversion of
an invertible matrix; a singular matrix is a degenerate-geometry hard
failure, rendered as none. -/
def getInverse (a : Mat3) : Option Mat3 :=
  if a.det = 0 then none
  else
    some
      ⟨(a.m11 * a.m22 - a.m12 * a.m21) / a.det,
       (a.m02 * a.m21 - a.m01 * a.m22) / a.det,
       (a.m01 * a.m12 - a.m02 * a.m11) / a.det,
       (a.m12 * a.m20 - a.m10 * a.m22) / a.det,
       (a.m00 * a.m22 - a.m02 * a.m20) / a.det,
       (a.m02 * a.m10 - a.m00 * a.m12) / a.det,
       (a.m10 * a.m21 - a.m11 * a.m20) / a.det,
       (a.m01 * a.m20 - a.m00 * a.m21) / a.det,
       (a.m00 * a.m11 - a.m01 * a.m10) / a.det⟩

/-- Snap one entry: near-1 becomes 1, near-(-1) becomes -1, near-0
becomes 0, anything else is kept.  Modelled from the spec: simplify
snaps near-0 and near-(plus or minus)1 entries to exact values to avoid
floating noise; the snapping threshold is one thousandth. -/
def snapOneZero (q : ℚ) : ℚ :=
  if |q - 1| ≤ 1 / 1000 then 1
  else if |q + 1| ≤ 1 / 1000 then -1
  else if |q| ≤ 1 / 1000 then 0
  else q

/-- One-and-zeros simplification: a.asOneAndZeros().  Modelled from the
spec: snaps near-0 and near-(plus or minus)1 entries to exact values. -/
def asOneAndZeros (a : Mat3) : Mat3 :=
  ⟨snapOneZero a.m00, snapOneZero a.m01, snapOneZero a.m02,
   snapOneZero a.m10, snapOneZero a.m11, snapOneZero a.m12,
   snapOneZero a.m20, snapOneZero a.m21, snapOneZero a.m22⟩

/-- Matrix-vector product: a.multiplyVector3D(v).  Modelled from the
spec: the orientation matrix maps index axes onto world axes, acting on
coordinate columns in the usual way. -/
def mulVec (a : Mat3) (v : Vec3) : Vec3 :=
  ⟨a.m00 * v.x + a.m01 * v.y + a.m02 * v.z,
   a.m10 * v.x + a.m11 * v.y + a.m12 * v.z,
   a.m20 * v.x + a.m21 * v.y + a.m22 * v.z⟩

/-- The slice normal of an orientation matrix, extracted in the source
getSliceIndex as get(2, 0), get(2, 1), get(2, 2).  Modelled from the
spec: the Matrix33 accessor itself is not among the sources; both the
spec glossary and the comment at the extraction site define the slice
normal as the third column of the orientation matrix. -/
def sliceNormal (a : Mat3) : Vec3 := ⟨a.m02, a.m12, a.m22⟩

end Mat3

/-- JavaScript rounding to the nearest integer: Math.round rounds half
away from zero upward, equal to the floor of the argument plus one
half. -/
def jsRound (q : ℚ) : ℤ := ⌊q + 1 / 2⌋

/-!
## Layer-group helpers: getScaledOffset (layergroup source)
-/

/-- A 2D quantity as used by the display code, an object with x and y. -/
structure XY where
  x : ℚ
  y : ℚ
deriving DecidableEq, Repr

/-- getScaledOffset(offset, scale, newScale, center): the offset adapting
to a new scale so that the input center stays at the same position. -/
def getScaledOffset (offset scale newScale center : XY) : XY :=
  let indexCenter : XY :=
    ⟨(center.x - offset.x) * scale.x, (center.y - offset.y) * scale.y⟩
  ⟨center.x - indexCenter.x / newScale.x,
   center.y - indexCenter.y / newScale.y⟩

/-- The index-space center used inside getScaledOffset, named for the
statements about it. -/
def scaledOffsetIndexCenter (offset scale center : XY) : XY :=
  ⟨(center.x - offset.x) * scale.x, (center.y - offset.y) * scale.y⟩

/-!
## The Geometry class (newest variant of the geometry source, the one
holding getSliceGeometrySpacing, flipK, appendFrame and the list-valued
Size and Spacing).  Size and Spacing values are kept as the plain value
arrays the class stores.
-/

namespace GeoA

/-- State of one dwv.image.Geometry instance: the per-slice origins, the
stored Size value array, the stored Spacing value array, the orientation
matrix, and the flag recording that new origins were appended since the
last spacing recompute. -/
structure Geometry where
  origins : List Vec3
  sizeVals : List ℚ
  spacingVals : List ℚ
  orientation : Mat3
  newOrigins : Bool
deriving DecidableEq, Repr

/-- getOrigin(): this variant returns the last listed origin
(origins[origins.length - 1]). -/
def getOrigin (g : Geometry) : Vec3 :=
  g.origins.getD (g.origins.length - 1) ⟨0, 0, 0⟩

/-- The first listed origin, which the spec designates as the anchor
origin.  Spec-side notion, used to compare against the code's
getOrigin. -/
def firstOrigin (g : Geometry) : Vec3 := g.origins.getD 0 ⟨0, 0, 0⟩

/-- getSize() without a view orientation argument: the stored size value
array.  The optional view-orientation branch of the source getter is
never taken by the functions verified here. -/
def getSizeVals (g : Geometry) : List ℚ := g.sizeVals

/-- The loop of getSliceGeometrySpacing over consecutive origin pairs:
walks adjacent origins, throws (none) on an exactly zero z-difference of
the reoriented origins, and keeps the first difference as the spacing.
The varying-spacing deltas only feed a log warning and carry no further
semantics. -/
def sgsLoop (m : Mat3) : List Vec3 → Option ℚ → Option ℚ
  | a :: b :: rest, sp =>
    let diff := |(m.mulVec a).z - (m.mulVec b).z|
    if diff = 0 then none
    else sgsLoop m (b :: rest) (some (sp.getD diff))
  | _, sp => sp

/-- getSliceGeometrySpacing(): 1 for a single origin; otherwise the
first absolute z-difference of consecutive origins after applying the
one-and-zeros simplification of the inverted orientation, throwing on a
zero difference (and on a singular orientation, whose inversion is a
hard failure). -/
def getSliceGeometrySpacing (g : Geometry) : Option ℚ :=
  if g.origins.length = 1 then some 1
  else
    match g.orientation.getInverse with
    | none => none
    | some inv => sgsLoop inv.asOneAndZeros g.origins none

/-- getSpacing() without a view orientation argument: when new origins
were appended the slice entry of the stored spacing array is recomputed
from getSliceGeometrySpacing, otherwise the stored array is returned. -/
def getSpacingVals (g : Geometry) : Option (List ℚ) :=
  if g.newOrigins then
    (getSliceGeometrySpacing g).map (fun s => g.spacingVals.set 2 s)
  else some g.spacingVals

/-- flipK(size, k) = (size.get(2) - 1) - k. -/
def flipK (sizeVals : List ℚ) (k : ℚ) : ℚ := (sizeVals.getD 2 0 - 1) - k

/-- indexToWorld(index): copies the index value array, replaces the
first three entries by origin + component * spacing, with the k entry
flipped before use. -/
def indexToWorld (g : Geometry) (index : List ℚ) : Option (List ℚ) :=
  (getSpacingVals g).map fun sp =>
    let origin := getOrigin g
    let k := flipK (getSizeVals g) (index.getD 2 0)
    ((index.set 0 (origin.x + index.getD 0 0 * sp.getD 0 0)).set 1
        (origin.y + index.getD 1 0 * sp.getD 1 0)).set 2
      (origin.z + k * sp.getD 2 0)

/-- worldToIndex(point): copies the point value array, replaces the
first three entries by the rounded (component - origin) / spacing, the
slice entry flipped after rounding. -/
def worldToIndex (g : Geometry) (point : List ℚ) : Option (List ℚ) :=
  (getSpacingVals g).map fun sp =>
    let origin := getOrigin g
    ((point.set 0
          ((jsRound ((point.getD 0 0 - origin.x) / sp.getD 0 0) : ℤ) : ℚ)).set
        1 ((jsRound ((point.getD 1 0 - origin.y) / sp.getD 1 0) : ℤ) : ℚ)).set
      2
      (flipK (getSizeVals g)
        ((jsRound ((point.getD 2 0 - origin.z) / sp.getD 2 0) : ℤ) : ℚ))

/-- Geometry.prototype.equals(rhs): short-circuit conjunction of origin
equality (getOrigin, the last listed origin), size equality and spacing
equality; the orientation matrix is never consulted.  Spacing equality
goes through the lazily recomputing getSpacing, so a failed recompute is
a thrown error (none). -/
def equalsG (g1 g2 : Geometry) : Option Bool :=
  if getOrigin g1 ≠ getOrigin g2 then some false
  else if g1.sizeVals ≠ g2.sizeVals then some false
  else
    match getSpacingVals g1, getSpacingVals g2 with
    | some sp1, some sp2 => some (sp1 = sp2)
    | _, _ => none

/-- List splice insertion: origins.splice(index, 0, origin) inserts the
element at the given position, clamped to the end. -/
def spliceInsert (l : List Vec3) (index : ℕ) (v : Vec3) : List Vec3 :=
  l.take index ++ v :: l.drop index

/-- appendOrigin(origin, index): records that new origins exist (spacing
becomes stale), inserts the origin at the list position, and bumps entry
2 of the size value array by one. -/
def appendOrigin (g : Geometry) (origin : Vec3) (index : ℕ) : Geometry :=
  { g with
    newOrigins := true
    origins := spliceInsert g.origins index origin
    sizeVals := g.sizeVals.set 2 (g.sizeVals.getD 2 0 + 1) }

/-- appendFrame(): bumps entry 2 of the size value array by one.  Note
that entry 2 is the slice count; the frame count is entry 3. -/
def appendFrame (g : Geometry) : Geometry :=
  { g with sizeVals := g.sizeVals.set 2 (g.sizeVals.getD 2 0 + 1) }

/-- The closest-origin scan of getSliceIndex: starting from index 0 and
the distance to origins[0], keep the first strictly smaller distance.
Returns the pair of best index and best distance.  Distances are
compared on their squares, which orders them exactly as the source's
Euclidean distances. -/
def minLoop : List ℚ → ℕ → ℕ → ℚ → ℕ × ℚ
  | [], _, bi, bv => (bi, bv)
  | d :: rest, i, bi, bv =>
    if d < bv then minLoop rest (i + 1) i d
    else minLoop rest (i + 1) bi bv

/-- getSliceIndex(point): index of the closest origin, bumped by one
when the dot product of the slice normal with the vector from that
origin to the point is negative. -/
def getSliceIndex (g : Geometry) (point : Vec3) : ℕ :=
  let ds := g.origins.map (fun o => point.distSq o)
  let closest := (minLoop ds 0 0 (ds.getD 0 0)).1
  let closestOrigin := g.origins.getD closest ⟨0, 0, 0⟩
  let pointDir := point.minus closestOrigin
  let normal := g.orientation.sliceNormal
  let dotProd := normal.dotProduct pointDir
  if dotProd < 0 then closest + 1 else closest

end GeoA

/-!
## Linear-offset conversion (variant of the geometry source holding
indexToOffset over getDimSize and offsetToIndex).  Both functions only
consult the size value array, embedded here as a list of integers.
-/

/-- size.getDimSize(d): the cumulative stride, the product of the sizes
of all dimensions below d.  Modelled from the spec: stride 0 is 1 and
stride d is stride (d-1) times size (d-1). -/
def getDimSize (sizeVals : List ℤ) (d : ℕ) : ℤ := (sizeVals.take d).prod

/-- indexToOffset(index): sum over all index positions of the component
times the matching cumulative stride. -/
def indexToOffset (sizeVals : List ℤ) (index : List ℤ) : ℤ :=
  ((List.range index.length).map
      (fun i => index.getD i 0 * getDimSize sizeVals i)).sum

/-- The descending loop of offsetToIndex: for i from the top dimension
down to 1, the value at position i is the floor of the running offset
divided by the stride, and the running offset keeps the remainder.
Returns the values at positions 1..i (lowest first) and the final
remainder. -/
def offsetToIndexLoop (sizeVals : List ℤ) : ℕ → ℤ → List ℤ × ℤ
  | 0, off => ([], off)
  | i + 1, off =>
    let dimSize := getDimSize sizeVals (i + 1)
    let v := Int.fdiv off dimSize
    let r := offsetToIndexLoop sizeVals i (off - v * dimSize)
    (r.1 ++ [v], r.2)

/-- offsetToIndex(offset): decomposes the offset from the highest
dimension down by successive integer division and remainder; the
remainder lands in position 0. -/
def offsetToIndex (sizeVals : List ℤ) (offset : ℤ) : List ℤ :=
  let r := offsetToIndexLoop sizeVals (sizeVals.length - 1) offset
  r.2 :: r.1

/-!
## Orientation helper of the layer-group source
-/

/-- getViewOrientation(imageOrientation, targetOrientation): identity
when no target orientation is supplied, otherwise the product of the
inverse of the one-and-zeros simplified image orientation with the
target orientation; the result is returned through getAbs in both
branches.  A failing inversion (singular simplified orientation) is a
hard failure, rendered as none. -/
def getViewOrientation (imageOrientation : Mat3)
    (targetOrientation : Option Mat3) : Option Mat3 :=
  match targetOrientation with
  | none => some Mat3.identity.getAbs
  | some t =>
    (imageOrientation.asOneAndZeros.getInverse).map
      (fun inv => (inv.multiply t).getAbs)

/-!
## The position-propagation pass of LayerGroup
(updateLayersToPositionChange).  The layers are external collaborators
(the view-layer class is not among the sources); each layer is
abstracted by its identifier, its role, the origins its view controller
reports for the pass, and the boolean answers its setBaseOffset,
canSetPosition and setCurrentPosition calls would return during the
pass.
-/

/-- Abstraction of one layer during a single propagation pass. -/
structure LayerM where
  layerId : ℕ
  isView : Bool
  origin0 : Vec3
  originAt : Option Vec3
  canSetPos : Bool
  setBaseOffsetRes : Bool
  setCurrentPosRes : Bool
deriving DecidableEq, Repr

/-- What the pass did to one layer: whether a base offset was applied
(hasSetOffset), whether the layer accepted the position (hasSetPos, kept
false for the originating layer whose setCurrentPosition is skipped),
and whether a forced draw was issued. -/
structure LayerOutcome where
  layerId : ℕ
  offsetSet : Bool
  posSet : Bool
  drew : Bool
deriving DecidableEq, Repr

/-- The per-layer loop of updateLayersToPositionChange, carrying the
first-view-layer base origins (origin at index zero and origin at the
current position; the latter may be undefined, in which case a later
view layer becomes the base).  Listener pause and resume and the
crosshair update do not affect the per-layer outcomes and are not
modelled. -/
def updateLoop (srcLayerId : ℕ) :
    List LayerM → Option Vec3 → Option Vec3 → List LayerOutcome
  | [], _, _ => []
  | l :: rest, base0, base =>
    let step :=
      if l.isView then
        if base.isNone then (false, some l.origin0, l.originAt)
        else if l.canSetPos ∧ l.originAt.isSome then
          (l.setBaseOffsetRes, base0, base)
        else (false, base0, base)
      else (false, base0, base)
    let hasSetOffset := step.1
    let hasSetPos :=
      if l.layerId ≠ srcLayerId then l.setCurrentPosRes else false
    let drew := !hasSetPos && hasSetOffset
    ⟨l.layerId, hasSetOffset, hasSetPos, drew⟩ ::
      updateLoop srcLayerId rest step.2.1 step.2.2

/-- One full position-propagation pass over the layer list. -/
def updatePass (layers : List LayerM) (srcLayerId : ℕ) : List LayerOutcome :=
  updateLoop srcLayerId layers none none

/-!
## Fit scale of LayerGroup (calculateFitScale, getMaxSize).  A layer is
abstracted by the real-world size its getImageWorldSize reports when it
is a view layer, and by none when it is a draw layer.
-/

/-- The loop of getMaxSize: walk the layers and keep, per axis, the
strictly largest view-layer world size seen so far. -/
def getMaxSizeLoop : List (Option (ℚ × ℚ)) → ℚ × ℚ → ℚ × ℚ
  | [], m => m
  | none :: rest, m => getMaxSizeLoop rest m
  | some s :: rest, m =>
    let m1 := if s.1 > m.1 then (s.1, m.2) else m
    let m2 := if s.2 > m1.2 then (m1.1, s.2) else m1
    getMaxSizeLoop rest m2

/-- getMaxSize(): largest view-layer world width and height, or
undefined (none) when both stay at zero. -/
def getMaxSize (layers : List (Option (ℚ × ℚ))) : Option (ℚ × ℚ) :=
  let m := getMaxSizeLoop layers (0, 0)
  if m.1 = 0 ∧ m.2 = 0 then none else some m

/-- calculateFitScale(): throws (error) when the container offsetWidth
and offsetHeight are both zero; returns undefined (ok none) when
getMaxSize is undefined; otherwise the minimum of container width over
the largest width and container height over the largest height. -/
def calculateFitScale (w h : ℚ) (layers : List (Option (ℚ × ℚ))) :
    Except Unit (Option ℚ) :=
  if w = 0 ∧ h = 0 then .error ()
  else
    match getMaxSize layers with
    | none => .ok none
    | some m => .ok (some (min (w / m.1) (h / m.2)))

/-!
## Claims
-/

/-- C10, counterexample: the zoom-center identity fails when a component
of the previous scale is zero.  With offset (0,0), previous scale (0,0),
new scale (1,1) and center (1,1), the index center is (0,0) and the
returned offset is (1,1); the left side of the claimed identity is 1
while the right side (which divides the zero index center by the zero
previous scale, a NaN in the source) is 0 in the exact model -- in both
models the claimed equality is false. -/
theorem c10_counterexample :
    ¬((scaledOffsetIndexCenter (XY.mk 0 0) (XY.mk 0 0) (XY.mk 1 1)).x /
          (XY.mk 1 1).x +
        (getScaledOffset (XY.mk 0 0) (XY.mk 0 0) (XY.mk 1 1) (XY.mk 1 1)).x =
      (scaledOffsetIndexCenter (XY.mk 0 0) (XY.mk 0 0) (XY.mk 1 1)).x /
          (XY.mk 0 0).x +
        (XY.mk 0 0).x) := by
  norm_num [scaledOffsetIndexCenter, getScaledOffset]

/-- C10, amended: for every previous offset, previous scale with all
components nonzero, new scale with all components nonzero, and center,
the offset returned by getScaledOffset keeps the zoom center fixed:
with indexCenter = (center - offset) * scale component-wise,
indexCenter / newScale + newOffset = indexCenter / scale + offset, and
both sides equal center. -/
theorem c10_scaled_offset_center_fixed (offset scale newScale center : XY)
    (hsx : scale.x ≠ 0) (hsy : scale.y ≠ 0)
    (hnx : newScale.x ≠ 0) (hny : newScale.y ≠ 0) :
    ((scaledOffsetIndexCenter offset scale center).x / newScale.x +
        (getScaledOffset offset scale newScale center).x =
      (scaledOffsetIndexCenter offset scale center).x / scale.x + offset.x) ∧
    ((scaledOffsetIndexCenter offset scale center).y / newScale.y +
        (getScaledOffset offset scale newScale center).y =
      (scaledOffsetIndexCenter offset scale center).y / scale.y + offset.y) ∧
    ((scaledOffsetIndexCenter offset scale center).x / scale.x + offset.x =
      center.x) ∧
    ((scaledOffsetIndexCenter offset scale center).y / scale.y + offset.y =
      center.y) := by
  unfold scaledOffsetIndexCenter getScaledOffset
  refine ⟨?_, ?_, ?_, ?_⟩ <;> ·
    simp only
    field_simp

/-- C10, witness for the amended statement at offset (1,2), scale (2,3),
new scale (4,5), center (6,7). -/
theorem c10_witness :
    (scaledOffsetIndexCenter (XY.mk 1 2) (XY.mk 2 3) (XY.mk 6 7)).x /
          (XY.mk 4 5).x +
        (getScaledOffset (XY.mk 1 2) (XY.mk 2 3) (XY.mk 4 5) (XY.mk 6 7)).x =
      (scaledOffsetIndexCenter (XY.mk 1 2) (XY.mk 2 3) (XY.mk 6 7)).x /
          (XY.mk 2 3).x +
        (XY.mk 1 2).x :=
  (c10_scaled_offset_center_fixed (XY.mk 1 2) (XY.mk 2 3) (XY.mk 4 5)
      (XY.mk 6 7) (by norm_num) (by norm_num) (by norm_num) (by norm_num)).1

/-- C9: getViewOrientation returns the identity matrix when the target
orientation is undefined; otherwise it returns the component-wise
absolute value of inverse(simplify(imageOrientation)) times the target
orientation; in particular an identity image orientation with an
undefined target orientation yields the identity matrix. -/
theorem c9_getViewOrientation (imageOrientation t inv : Mat3)
    (hinv : imageOrientation.asOneAndZeros.getInverse = some inv) :
    getViewOrientation imageOrientation none = some Mat3.identity ∧
    getViewOrientation imageOrientation (some t) =
      some ((inv.multiply t).getAbs) ∧
    getViewOrientation Mat3.identity none = some Mat3.identity := by
  have habs : Mat3.identity.getAbs = Mat3.identity := by
    norm_num [Mat3.getAbs, Mat3.identity]
  refine ⟨?_, ?_, ?_⟩
  · show some Mat3.identity.getAbs = some Mat3.identity
    rw [habs]
  · show (imageOrientation.asOneAndZeros.getInverse).map
        (fun inv => (inv.multiply t).getAbs) = some ((inv.multiply t).getAbs)
    rw [hinv]
    rfl
  · show some Mat3.identity.getAbs = some Mat3.identity
    rw [habs]

/-- C9, witness: identity image orientation and identity target; the
simplified identity inverts to itself and the result is the absolute
value of the identity product. -/
theorem c9_witness :
    Mat3.identity.asOneAndZeros.getInverse = some Mat3.identity ∧
    getViewOrientation Mat3.identity (some Mat3.identity) =
      some ((Mat3.identity.multiply Mat3.identity).getAbs) := by
  have h : Mat3.identity.asOneAndZeros.getInverse = some Mat3.identity := by
    have h1 : Mat3.identity.asOneAndZeros = Mat3.identity := by
      norm_num [Mat3.asOneAndZeros, Mat3.snapOneZero, Mat3.identity]
    rw [h1]
    norm_num [Mat3.getInverse, Mat3.det, Mat3.identity]
  exact ⟨h,
    (c9_getViewOrientation Mat3.identity Mat3.identity Mat3.identity h).2.1⟩

/-- C6, code bug: on a geometry of size (4, 4, 2, 1), appendFrame bumps
the slice entry (position 2) of the size array from 2 to 3 and leaves
the frame entry (position 3) at 1, while the claim and the spec say a
frame append increases the frame count and leaves the other dimensions
unchanged.  The appendOrigin half of the claim behaves as claimed: the
slice entry grows by one, the staleness flag is set, and all the other
entries are untouched. -/
theorem c6_appendFrame_increments_slices :
    (GeoA.appendFrame
          ⟨[⟨0, 0, 0⟩], [4, 4, 2, 1], [1, 1, 1], Mat3.identity,
            false⟩).sizeVals = [4, 4, 3, 1] ∧
    (GeoA.appendFrame
          ⟨[⟨0, 0, 0⟩], [4, 4, 2, 1], [1, 1, 1], Mat3.identity,
            false⟩).sizeVals.getD 3 0 = 1 ∧
    (GeoA.appendOrigin
          ⟨[⟨0, 0, 0⟩], [4, 4, 2, 1], [1, 1, 1], Mat3.identity, false⟩
          ⟨0, 0, 1⟩ 1).sizeVals = [4, 4, 3, 1] ∧
    (GeoA.appendOrigin
          ⟨[⟨0, 0, 0⟩], [4, 4, 2, 1], [1, 1, 1], Mat3.identity, false⟩
          ⟨0, 0, 1⟩ 1).newOrigins = true := by
  refine ⟨?_, ?_, ?_, ?_⟩ <;>
    norm_num [GeoA.appendFrame, GeoA.appendOrigin]

/-- Every outcome of the propagation loop records a forced draw exactly
when no position was set and a base offset was applied, and the loop
produces one outcome per layer. -/
theorem updateLoop_spec (srcLayerId : ℕ) :
    ∀ (layers : List LayerM) (base0 base : Option Vec3),
      (updateLoop srcLayerId layers base0 base).length = layers.length ∧
      ∀ o ∈ updateLoop srcLayerId layers base0 base,
        o.drew = (!o.posSet && o.offsetSet) := by
  intro layers
  induction layers with
  | nil => intro base0 base; simp [updateLoop]
  | cons l rest ih =>
    intro base0 base
    rw [updateLoop]
    refine ⟨by simpa using (ih _ _).1, ?_⟩
    intro o ho
    rcases List.mem_cons.mp ho with h | h
    · subst h; rfl
    · exact (ih _ _).2 o h

/-- C4: during one position-propagation pass no error is raised (the
pass is total and yields exactly one outcome per layer), every layer
whose setCurrentPosition returned false while a base-offset adjustment
was applied gets a forced draw, and no layer that accepted the position
or received no base-offset adjustment is force-drawn. -/
theorem c4_update_pass (layers : List LayerM) (srcLayerId : ℕ) (o : LayerOutcome)
    (ho : o ∈ updatePass layers srcLayerId) :
    (updatePass layers srcLayerId).length = layers.length ∧
    (o.posSet = false → o.offsetSet = true → o.drew = true) ∧
    (o.posSet = true → o.drew = false) ∧
    (o.offsetSet = false → o.drew = false) := by
  have h := updateLoop_spec srcLayerId layers none none
  refine ⟨h.1, ?_, ?_, ?_⟩ <;> intro h1 <;>
    first
      | (intro h2; rw [h.2 o ho, h1, h2]; rfl)
      | (rw [h.2 o ho, h1]; simp)

/-- C4, witness: two view layers, the first being both the base and the
originator of the change; the second applies a base offset, rejects the
position, and is force-drawn. -/
theorem c4_witness :
    (LayerOutcome.mk 1 true false true ∈
      updatePass
        [LayerM.mk 0 true (Vec3.mk 0 0 0) (some (Vec3.mk 0 0 0)) true true
            true,
          LayerM.mk 1 true (Vec3.mk 0 0 1) (some (Vec3.mk 0 0 1)) true true
            false] 0) ∧
    (updatePass
        [LayerM.mk 0 true (Vec3.mk 0 0 0) (some (Vec3.mk 0 0 0)) true true
            true,
          LayerM.mk 1 true (Vec3.mk 0 0 1) (some (Vec3.mk 0 0 1)) true true
            false] 0).length = 2 ∧
    ((LayerOutcome.mk 1 true false true).posSet = false →
      (LayerOutcome.mk 1 true false true).offsetSet = true →
      (LayerOutcome.mk 1 true false true).drew = true) := by
  have hmem : LayerOutcome.mk 1 true false true ∈
      updatePass
        [LayerM.mk 0 true (Vec3.mk 0 0 0) (some (Vec3.mk 0 0 0)) true true
            true,
          LayerM.mk 1 true (Vec3.mk 0 0 1) (some (Vec3.mk 0 0 1)) true true
            false] 0 := by
    norm_num [updatePass, updateLoop]
  have h := c4_update_pass
    [LayerM.mk 0 true (Vec3.mk 0 0 0) (some (Vec3.mk 0 0 0)) true true true,
      LayerM.mk 1 true (Vec3.mk 0 0 1) (some (Vec3.mk 0 0 1)) true true
        false] 0 (LayerOutcome.mk 1 true false true) hmem
  exact ⟨hmem, h.1, h.2.1⟩

/-- C7, counterexample: two geometries with identical first listed
origins, identical sizes, identical spacings (and even identical
orientations), whose equals is nevertheless false, because the source
getOrigin of this class returns the last listed origin and the two last
origins differ.  Both states arise from appending one origin, (0,0,1)
respectively (0,0,-1), to a geometry anchored at (0,0,0) and letting the
spacing recompute (both yield slice spacing 1). -/
theorem c7_counterexample :
    GeoA.firstOrigin
        ⟨[⟨0, 0, 0⟩, ⟨0, 0, 1⟩], [4, 4, 2, 1], [1, 1, 1], Mat3.identity,
          false⟩ =
      GeoA.firstOrigin
        ⟨[⟨0, 0, 0⟩, ⟨0, 0, -1⟩], [4, 4, 2, 1], [1, 1, 1], Mat3.identity,
          false⟩ ∧
    GeoA.equalsG
        ⟨[⟨0, 0, 0⟩, ⟨0, 0, 1⟩], [4, 4, 2, 1], [1, 1, 1], Mat3.identity,
          false⟩
        ⟨[⟨0, 0, 0⟩, ⟨0, 0, -1⟩], [4, 4, 2, 1], [1, 1, 1], Mat3.identity,
          false⟩ = some false := by
  constructor
  · rfl
  · norm_num [GeoA.equalsG, GeoA.getOrigin]

/-- C7, amended: for geometries whose derived spacing is settled (no
origin appended since the last spacing recompute), equals returns true
exactly when the origins returned by getOrigin (the LAST listed origin
of each geometry, not the first), the size arrays and the spacing
arrays are pairwise equal; the orientation matrix does not participate
in equality. -/
theorem c7_equals_iff (g1 g2 : GeoA.Geometry)
    (h1 : g1.newOrigins = false) (h2 : g2.newOrigins = false) :
    (GeoA.equalsG g1 g2 = some true ↔
      (GeoA.getOrigin g1 = GeoA.getOrigin g2 ∧
        g1.sizeVals = g2.sizeVals ∧ g1.spacingVals = g2.spacingVals)) ∧
    (∀ m1 m2 : Mat3,
      GeoA.equalsG { g1 with orientation := m1 }
          { g2 with orientation := m2 } =
        GeoA.equalsG g1 g2) := by
  have hs1 : GeoA.getSpacingVals g1 = some g1.spacingVals := by
    simp [GeoA.getSpacingVals, h1]
  have hs2 : GeoA.getSpacingVals g2 = some g2.spacingVals := by
    simp [GeoA.getSpacingVals, h2]
  constructor
  · unfold GeoA.equalsG
    rw [hs1, hs2]
    by_cases ho : GeoA.getOrigin g1 = GeoA.getOrigin g2
    · by_cases hsz : g1.sizeVals = g2.sizeVals
      · simp [ho, hsz]
      · simp [ho, hsz]
    · simp [ho]
  · intro m1 m2
    unfold GeoA.equalsG GeoA.getSpacingVals GeoA.getOrigin
    simp [h1, h2]

/-- C7, witness for the amended statement: two settled geometries that
differ only in orientation are equal, and the equality characterization
holds for them. -/
theorem c7_witness :
    (GeoA.equalsG
        ⟨[⟨0, 0, 0⟩], [4, 4, 1, 1], [1, 1, 1], Mat3.identity, false⟩
        ⟨[⟨0, 0, 0⟩], [4, 4, 1, 1], [1, 1, 1], Mat3.identity.getAbs,
          false⟩ = some true ↔
      (GeoA.getOrigin
          ⟨[⟨0, 0, 0⟩], [4, 4, 1, 1], [1, 1, 1], Mat3.identity, false⟩ =
        GeoA.getOrigin
          ⟨[⟨0, 0, 0⟩], [4, 4, 1, 1], [1, 1, 1], Mat3.identity.getAbs,
            false⟩ ∧
        [4, 4, 1, 1] = ([4, 4, 1, 1] : List ℚ) ∧
        [1, 1, 1] = ([1, 1, 1] : List ℚ))) :=
  (c7_equals_iff
      ⟨[⟨0, 0, 0⟩], [4, 4, 1, 1], [1, 1, 1], Mat3.identity, false⟩
      ⟨[⟨0, 0, 0⟩], [4, 4, 1, 1], [1, 1, 1], Mat3.identity.getAbs, false⟩
      rfl rfl).1


/-- The running maximum of getMaxSize never decreases along the scan. -/
theorem getMaxSizeLoop_ge :
    ∀ (layers : List (Option (ℚ × ℚ))) (m : ℚ × ℚ),
      m.1 ≤ (getMaxSizeLoop layers m).1 ∧ m.2 ≤ (getMaxSizeLoop layers m).2 := by
  intro layers
  induction layers with
  | nil => intro m; simp [getMaxSizeLoop]
  | cons l rest ih =>
    intro m
    cases l with
    | none => simpa [getMaxSizeLoop] using ih m
    | some s =>
      have key : ∀ m2 : ℚ × ℚ, m.1 ≤ m2.1 → m.2 ≤ m2.2 →
          m.1 ≤ (getMaxSizeLoop rest m2).1 ∧
            m.2 ≤ (getMaxSizeLoop rest m2).2 :=
        fun m2 ha hb => ⟨le_trans ha (ih m2).1, le_trans hb (ih m2).2⟩
      simp only [getMaxSizeLoop]
      apply key <;> split_ifs <;> simp_all [le_of_lt]

/-- Every view-layer size in the list is dominated by the result of the
getMaxSize scan. -/
theorem getMaxSizeLoop_bounds :
    ∀ (layers : List (Option (ℚ × ℚ))) (m s : ℚ × ℚ), some s ∈ layers →
      s.1 ≤ (getMaxSizeLoop layers m).1 ∧ s.2 ≤ (getMaxSizeLoop layers m).2 := by
  intro layers
  induction layers with
  | nil => intro m s hs; simp at hs
  | cons l rest ih =>
    intro m s hs
    rcases List.mem_cons.mp hs with h | h
    · subst h
      have key : ∀ m2 : ℚ × ℚ, s.1 ≤ m2.1 → s.2 ≤ m2.2 →
          s.1 ≤ (getMaxSizeLoop rest m2).1 ∧
            s.2 ≤ (getMaxSizeLoop rest m2).2 :=
        fun m2 ha hb =>
          ⟨le_trans ha (getMaxSizeLoop_ge rest m2).1,
            le_trans hb (getMaxSizeLoop_ge rest m2).2⟩
      simp only [getMaxSizeLoop]
      apply key <;> split_ifs <;> simp_all [le_of_lt, le_of_not_lt]
    · cases l with
      | none => simpa [getMaxSizeLoop] using ih m s h
      | some s2 =>
        simp only [getMaxSizeLoop]
        split_ifs <;> exact ih _ s h

/-- Without any view layer the getMaxSize scan keeps its start value. -/
theorem getMaxSizeLoop_all_none :
    ∀ (layers : List (Option (ℚ × ℚ))) (m : ℚ × ℚ),
      (∀ x ∈ layers, x = none) → getMaxSizeLoop layers m = m := by
  intro layers
  induction layers with
  | nil => intro m _; rfl
  | cons l rest ih =>
    intro m hall
    have hl : l = none := hall l (List.mem_cons_self l rest)
    subst hl
    exact ih m (fun x hx => hall x (List.mem_cons_of_mem _ hx))

/-- C8, counterexample: a container of width 0 and height 100 has zero
area, yet calculateFitScale does not signal an error on it: with one
view layer of world size 10 by 10 it returns the scale 0, because the
source only throws when offsetWidth and offsetHeight are both zero. -/
theorem c8_counterexample :
    (0 : ℚ) * 100 = 0 ∧
    calculateFitScale 0 100 [some (10, 10)] = .ok (some 0) := by
  constructor
  · norm_num
  · norm_num [calculateFitScale, getMaxSize, getMaxSizeLoop]

/-- C8, amended: calculateFitScale signals an error exactly when the
container width and height are BOTH zero (not on every zero-area
container); it returns undefined when no view layer exists yet; and
otherwise it returns the minimum of container width over the largest
view-layer world width and container height over the largest world
height, which for positive extents and a nonnegative container is the
largest scale under which every view-layer extent fits the container. -/
theorem c8_amended (w h : ℚ) (layers : List (Option (ℚ × ℚ))) :
    (calculateFitScale w h layers = .error () ↔ (w = 0 ∧ h = 0)) ∧
    ((∀ x ∈ layers, x = none) → ¬(w = 0 ∧ h = 0) →
      calculateFitScale w h layers = .ok none) ∧
    (∀ m, getMaxSize layers = some m → ¬(w = 0 ∧ h = 0) →
      calculateFitScale w h layers = .ok (some (min (w / m.1) (h / m.2))) ∧
      (0 ≤ w → 0 ≤ h → 0 < m.1 → 0 < m.2 →
        (∀ s, some s ∈ layers →
          min (w / m.1) (h / m.2) * s.1 ≤ w ∧
          min (w / m.1) (h / m.2) * s.2 ≤ h) ∧
        (∀ t, t * m.1 ≤ w → t * m.2 ≤ h →
          t ≤ min (w / m.1) (h / m.2)))) := by
  refine ⟨?_, ?_, ?_⟩
  · unfold calculateFitScale
    split_ifs with hz
    · simp [hz]
    · cases hgm : getMaxSize layers <;> simp [hz]
  · intro hall hz
    have hnone : getMaxSize layers = none := by
      unfold getMaxSize
      rw [getMaxSizeLoop_all_none layers (0, 0) hall]
      simp
    unfold calculateFitScale
    rw [if_neg hz, hnone]
  · intro m hm hz
    have hys : calculateFitScale w h layers =
        .ok (some (min (w / m.1) (h / m.2))) := by
      unfold calculateFitScale
      rw [if_neg hz, hm]
    refine ⟨hys, ?_⟩
    intro hw hh hm1 hm2
    have hloop : getMaxSizeLoop layers (0, 0) = m := by
      simp only [getMaxSize] at hm
      split_ifs at hm with h0
      exact Option.some_injective _ hm
    have hscale0 : 0 ≤ min (w / m.1) (h / m.2) :=
      le_min (div_nonneg hw (le_of_lt hm1)) (div_nonneg hh (le_of_lt hm2))
    constructor
    · intro s hs
      have hb := getMaxSizeLoop_bounds layers (0, 0) s hs
      rw [hloop] at hb
      constructor
      · calc min (w / m.1) (h / m.2) * s.1
            ≤ min (w / m.1) (h / m.2) * m.1 :=
              mul_le_mul_of_nonneg_left hb.1 hscale0
          _ ≤ (w / m.1) * m.1 :=
              mul_le_mul_of_nonneg_right (min_le_left _ _) (le_of_lt hm1)
          _ = w := div_mul_cancel₀ w (ne_of_gt hm1)
      · calc min (w / m.1) (h / m.2) * s.2
            ≤ min (w / m.1) (h / m.2) * m.2 :=
              mul_le_mul_of_nonneg_left hb.2 hscale0
          _ ≤ (h / m.2) * m.2 :=
              mul_le_mul_of_nonneg_right (min_le_right _ _) (le_of_lt hm2)
          _ = h := div_mul_cancel₀ h (ne_of_gt hm2)
    · intro t ht1 ht2
      exact le_min ((le_div_iff₀ hm1).mpr ht1) ((le_div_iff₀ hm2).mpr ht2)

/-- C8, witness: the spec scenario, a 200 by 100 container and maximal
data real size 100 by 100, gives fit scale 1. -/
theorem c8_witness :
    calculateFitScale 200 100 [some (100, 100)] = .ok (some 1) := by
  have h := (c8_amended 200 100 [some (100, 100)]).2.2 (100, 100)
    (by norm_num [getMaxSize, getMaxSizeLoop]) (by norm_num)
  rw [h.1]
  norm_num

/-- The slice-spacing loop started with a recorded spacing throws (none)
exactly when some adjacent origin pair has a zero reoriented
z-difference. -/
theorem sgsLoop_none_iff (m : Mat3) :
    ∀ (l : List Vec3) (s : ℚ),
      (GeoA.sgsLoop m l (some s) = none ↔
        ∃ p ∈ l.zip l.tail,
          |(m.mulVec p.1).z - (m.mulVec p.2).z| = 0) := by
  intro l
  induction l with
  | nil => intro s; simp [GeoA.sgsLoop]
  | cons a rest ih =>
    intro s
    cases rest with
    | nil => simp [GeoA.sgsLoop]
    | cons b rest2 =>
      rw [GeoA.sgsLoop]
      by_cases hd : |(m.mulVec a).z - (m.mulVec b).z| = 0
      · rw [if_pos hd]
        constructor
        · intro _
          refine ⟨(a, b), ?_, hd⟩
          simp [List.zip_cons_cons]
        · intro _
          rfl
      · rw [if_neg hd]
        simp only [Option.getD_some]
        rw [ih s]
        simp only [List.zip_cons_cons, List.tail_cons]
        constructor
        · rintro ⟨p, hp, he⟩
          exact ⟨p, List.mem_cons_of_mem _ hp, he⟩
        · rintro ⟨p, hp, he⟩
          rcases List.mem_cons.mp hp with h | h
          · subst h; exact absurd he hd
          · exact ⟨p, h, he⟩

/-- Without any zero difference the slice-spacing loop keeps the first
recorded spacing: later differences only feed the warning deltas. -/
theorem sgsLoop_keeps_first (m : Mat3) :
    ∀ (l : List Vec3) (s : ℚ),
      (∀ p ∈ l.zip l.tail, |(m.mulVec p.1).z - (m.mulVec p.2).z| ≠ 0) →
      GeoA.sgsLoop m l (some s) = some s := by
  intro l
  induction l with
  | nil => intro s _; rfl
  | cons a rest ih =>
    intro s hall
    cases rest with
    | nil => rfl
    | cons b rest2 =>
      rw [GeoA.sgsLoop]
      have hd : |(m.mulVec a).z - (m.mulVec b).z| ≠ 0 := by
        apply hall (a, b)
        simp [List.zip_cons_cons]
      rw [if_neg hd]
      simp only [Option.getD_some]
      apply ih
      intro p hp
      apply hall p
      simp only [List.zip_cons_cons, List.tail_cons]
      exact List.mem_cons_of_mem _ hp

/-- C5: getSliceGeometrySpacing returns 1 for a single origin; with two
or more origins (and an invertible orientation, a data-model invariant)
it throws exactly when some adjacent origin pair has a zero absolute
z-difference after the one-and-zeros-simplified inverted orientation is
applied, so a nonzero non-constant spacing never fails; and when every
adjacent difference equals a nonzero s the result is exactly s. -/
theorem c5_slice_geometry_spacing (g : GeoA.Geometry) (inv : Mat3)
    (hinv : g.orientation.getInverse = some inv) :
    (g.origins.length = 1 → GeoA.getSliceGeometrySpacing g = some 1) ∧
    (2 ≤ g.origins.length →
      (GeoA.getSliceGeometrySpacing g = none ↔
        ∃ p ∈ g.origins.zip g.origins.tail,
          |(inv.asOneAndZeros.mulVec p.1).z -
            (inv.asOneAndZeros.mulVec p.2).z| = 0) ∧
      (∀ s : ℚ, s ≠ 0 →
        (∀ p ∈ g.origins.zip g.origins.tail,
          |(inv.asOneAndZeros.mulVec p.1).z -
            (inv.asOneAndZeros.mulVec p.2).z| = s) →
        GeoA.getSliceGeometrySpacing g = some s)) := by
  constructor
  · intro h1
    unfold GeoA.getSliceGeometrySpacing
    rw [if_pos h1]
  · intro h2
    have hne1 : g.origins.length ≠ 1 := by omega
    have hunfold : GeoA.getSliceGeometrySpacing g =
        GeoA.sgsLoop inv.asOneAndZeros g.origins none := by
      unfold GeoA.getSliceGeometrySpacing
      rw [if_neg hne1, hinv]
    rcases hor : g.origins with _ | ⟨a, _ | ⟨b, rest⟩⟩
    · rw [hor] at h2; simp at h2
    · rw [hor] at h2; simp at h2
    · rw [hunfold, hor]
      rw [GeoA.sgsLoop]
      set M := inv.asOneAndZeros with hM
      constructor
      · by_cases hd : |(M.mulVec a).z - (M.mulVec b).z| = 0
        · rw [if_pos hd]
          constructor
          · intro _
            refine ⟨(a, b), ?_, hd⟩
            simp [List.zip_cons_cons]
          · intro _
            rfl
        · rw [if_neg hd]
          simp only [Option.getD_none]
          rw [sgsLoop_none_iff]
          simp only [List.zip_cons_cons, List.tail_cons]
          constructor
          · rintro ⟨p, hp, he⟩
            exact ⟨p, List.mem_cons_of_mem _ hp, he⟩
          · rintro ⟨p, hp, he⟩
            rcases List.mem_cons.mp hp with h | h
            · subst h; exact absurd he hd
            · exact ⟨p, h, he⟩
      · intro s hs hall
        have hd : |(M.mulVec a).z - (M.mulVec b).z| = s := by
          apply hall (a, b)
          simp [List.zip_cons_cons]
        have hdne : |(M.mulVec a).z - (M.mulVec b).z| ≠ 0 := by
          rw [hd]; exact hs
        rw [if_neg hdne]
        simp only [Option.getD_none]
        rw [sgsLoop_keeps_first, hd]
        intro p hp
        rw [hall p ?_]
        · exact hs
        · simp only [List.zip_cons_cons, List.tail_cons]
          exact List.mem_cons_of_mem _ hp

/-- C5, witness: a two-origin identity-oriented geometry with origins at
z = 0 and z = 2 has slice geometry spacing 2. -/
theorem c5_witness :
    2 ≤ ([Vec3.mk 0 0 0, Vec3.mk 0 0 2] : List Vec3).length ∧
    GeoA.getSliceGeometrySpacing
        ⟨[Vec3.mk 0 0 0, Vec3.mk 0 0 2], [4, 4, 2, 1], [1, 1, 1],
          Mat3.identity, true⟩ = some 2 := by
  have hone : Mat3.identity.asOneAndZeros = Mat3.identity := by
    norm_num [Mat3.asOneAndZeros, Mat3.snapOneZero, Mat3.identity]
  have hinv : Mat3.identity.getInverse = some Mat3.identity := by
    norm_num [Mat3.getInverse, Mat3.det, Mat3.identity]
  refine ⟨by norm_num, ?_⟩
  apply ((c5_slice_geometry_spacing
      ⟨[Vec3.mk 0 0 0, Vec3.mk 0 0 2], [4, 4, 2, 1], [1, 1, 1],
        Mat3.identity, true⟩
      Mat3.identity hinv).2 (by norm_num)).2 2 (by norm_num)
  intro p hp
  simp only [List.zip_cons_cons, List.tail_cons, List.zip_nil_right] at hp
  rcases List.mem_cons.mp hp with h | h
  · subst h
    rw [hone]
    norm_num [Mat3.mulVec, Mat3.identity]
  · simp at h

/-- Characterization of the closest-origin scan: the returned distance
is a lower bound of the start value and of all scanned values, and the
returned index either is the unchanged start index (when nothing beats
the start value) or points at the first scanned element strictly below
the start value that no earlier scanned element undercuts. -/
theorem minLoop_spec :
    ∀ (l : List ℚ) (i bi : ℕ) (bv : ℚ),
      ((GeoA.minLoop l i bi bv).2 ≤ bv ∧
        ∀ j < l.length, (GeoA.minLoop l i bi bv).2 ≤ l.getD j 0) ∧
      (((GeoA.minLoop l i bi bv).1 = bi ∧ (GeoA.minLoop l i bi bv).2 = bv ∧
          ∀ j < l.length, bv ≤ l.getD j 0) ∨
        (∃ j, j < l.length ∧ (GeoA.minLoop l i bi bv).1 = i + j ∧
          (GeoA.minLoop l i bi bv).2 = l.getD j 0 ∧
          (GeoA.minLoop l i bi bv).2 < bv ∧
          ∀ k < j, (GeoA.minLoop l i bi bv).2 < l.getD k 0)) := by
  intro l
  induction l with
  | nil =>
    intro i bi bv
    refine ⟨⟨le_refl bv, ?_⟩, Or.inl ⟨rfl, rfl, ?_⟩⟩ <;>
      · intro j hj; simp at hj
  | cons d rest ih =>
    intro i bi bv
    by_cases hlt : d < bv
    · have hstep : GeoA.minLoop (d :: rest) i bi bv =
          GeoA.minLoop rest (i + 1) i d := by
        rw [GeoA.minLoop, if_pos hlt]
      rw [hstep]
      obtain ⟨⟨ha1, ha2⟩, hb⟩ := ih (i + 1) i d
      refine ⟨⟨le_trans ha1 (le_of_lt hlt), ?_⟩, ?_⟩
      · intro j hj
        cases j with
        | zero => simpa using ha1
        | succ k =>
          simp only [List.getD_cons_succ]
          exact ha2 k (by simpa using hj)
      · rcases hb with ⟨h1, h2, h3⟩ | ⟨j, hj, h1, h2, h3, h4⟩
        · refine Or.inr ⟨0, by simp, by omega, by simpa using h2, ?_, ?_⟩
          · rw [h2]; exact hlt
          · intro k hk; omega
        · refine Or.inr ⟨j + 1, by simpa using hj, by omega,
            by simpa using h2, lt_trans h3 hlt, ?_⟩
          intro k hk
          cases k with
          | zero => simpa using h3
          | succ k2 =>
            simp only [List.getD_cons_succ]
            exact h4 k2 (by omega)
    · have hge : bv ≤ d := le_of_not_lt hlt
      have hstep : GeoA.minLoop (d :: rest) i bi bv =
          GeoA.minLoop rest (i + 1) bi bv := by
        rw [GeoA.minLoop, if_neg hlt]
      rw [hstep]
      obtain ⟨⟨ha1, ha2⟩, hb⟩ := ih (i + 1) bi bv
      refine ⟨⟨ha1, ?_⟩, ?_⟩
      · intro j hj
        cases j with
        | zero => simpa using le_trans ha1 hge
        | succ k =>
          simp only [List.getD_cons_succ]
          exact ha2 k (by simpa using hj)
      · rcases hb with ⟨h1, h2, h3⟩ | ⟨j, hj, h1, h2, h3, h4⟩
        · refine Or.inl ⟨h1, h2, ?_⟩
          intro j hj
          cases j with
          | zero => simpa using hge
          | succ k =>
            simp only [List.getD_cons_succ]
            exact h3 k (by simpa using hj)
        · refine Or.inr ⟨j + 1, by simpa using hj, by omega,
            by simpa using h2, h3, ?_⟩
          intro k hk
          cases k with
          | zero => simpa using lt_of_lt_of_le h3 hge
          | succ k2 =>
            simp only [List.getD_cons_succ]
            exact h4 k2 (by omega)

/-- C3: getSliceIndex returns the index of the origin nearest to the
probe point (ties keeping the lower index found first during the linear
scan), incremented by exactly one when the dot product of the slice
normal with the vector from that closest origin to the point is
negative and kept unchanged otherwise.  Distances are compared through
their squares, which orders them as the source's Euclidean
distances. -/
theorem c3_getSliceIndex (g : GeoA.Geometry) (point : Vec3)
    (hne : g.origins ≠ []) :
    ∃ ci, ci < g.origins.length ∧
      (∀ j < g.origins.length,
        point.distSq (g.origins.getD ci ⟨0, 0, 0⟩) ≤
          point.distSq (g.origins.getD j ⟨0, 0, 0⟩)) ∧
      (∀ j < ci,
        point.distSq (g.origins.getD ci ⟨0, 0, 0⟩) <
          point.distSq (g.origins.getD j ⟨0, 0, 0⟩)) ∧
      GeoA.getSliceIndex g point =
        if (g.orientation.sliceNormal).dotProduct
            (point.minus (g.origins.getD ci ⟨0, 0, 0⟩)) < 0
        then ci + 1 else ci := by
  have h0 : 0 < g.origins.length := List.length_pos.mpr hne
  have hlen : (g.origins.map (fun o => point.distSq o)).length =
      g.origins.length := List.length_map _ _
  have hget : ∀ j < g.origins.length,
      (g.origins.map (fun o => point.distSq o)).getD j 0 =
        point.distSq (g.origins.getD j ⟨0, 0, 0⟩) := by
    intro j hj
    rw [List.getD_eq_getElem _ _ (by omega), List.getD_eq_getElem _ _ hj,
      List.getElem_map]
  have hfinal : GeoA.getSliceIndex g point =
      (if (g.orientation.sliceNormal).dotProduct
          (point.minus
            (g.origins.getD
              (GeoA.minLoop (g.origins.map (fun o => point.distSq o)) 0 0
                  ((g.origins.map (fun o => point.distSq o)).getD 0 0)).1
              ⟨0, 0, 0⟩)) < 0
      then (GeoA.minLoop (g.origins.map (fun o => point.distSq o)) 0 0
          ((g.origins.map (fun o => point.distSq o)).getD 0 0)).1 + 1
      else (GeoA.minLoop (g.origins.map (fun o => point.distSq o)) 0 0
          ((g.origins.map (fun o => point.distSq o)).getD 0 0)).1) := rfl
  obtain ⟨⟨ha1, ha2⟩, hb⟩ :=
    minLoop_spec (g.origins.map (fun o => point.distSq o)) 0 0
      ((g.origins.map (fun o => point.distSq o)).getD 0 0)
  rcases hb with ⟨h1, h2, h3⟩ | ⟨j, hj, h1, h2, h3, h4⟩
  · refine ⟨0, h0, ?_, ?_, ?_⟩
    · intro j hj
      rw [← hget 0 h0, ← hget j hj]
      exact h3 j (by omega)
    · intro j hj; omega
    · rw [hfinal, h1]
  · have h1' : (GeoA.minLoop (g.origins.map (fun o => point.distSq o)) 0 0
        ((g.origins.map (fun o => point.distSq o)).getD 0 0)).1 = j := by
      omega
    refine ⟨j, by omega, ?_, ?_, ?_⟩
    · intro k hk
      rw [← hget j (by omega), ← hget k hk, ← h2]
      exact ha2 k (by omega)
    · intro k hk
      rw [← hget j (by omega), ← hget k (by omega), ← h2]
      exact h4 k hk
    · rw [hfinal, h1']

/-- C3, witness: a two-origin stack at z = 0 and z = 2 probed at
z = 3; the closest origin is index 1 and the dot product with the
normal is positive, so the slice index stays 1. -/
theorem c3_witness :
    ∃ ci,
      ci <
        (GeoA.Geometry.mk [Vec3.mk 0 0 0, Vec3.mk 0 0 2] [4, 4, 2, 1]
            [1, 1, 2] Mat3.identity false).origins.length ∧
      (∀ j <
          (GeoA.Geometry.mk [Vec3.mk 0 0 0, Vec3.mk 0 0 2] [4, 4, 2, 1]
              [1, 1, 2] Mat3.identity false).origins.length,
        (Vec3.mk 0 0 3).distSq
            ((GeoA.Geometry.mk [Vec3.mk 0 0 0, Vec3.mk 0 0 2] [4, 4, 2, 1]
                [1, 1, 2] Mat3.identity false).origins.getD ci ⟨0, 0, 0⟩) ≤
          (Vec3.mk 0 0 3).distSq
            ((GeoA.Geometry.mk [Vec3.mk 0 0 0, Vec3.mk 0 0 2] [4, 4, 2, 1]
                [1, 1, 2] Mat3.identity false).origins.getD j ⟨0, 0, 0⟩)) ∧
      (∀ j < ci,
        (Vec3.mk 0 0 3).distSq
            ((GeoA.Geometry.mk [Vec3.mk 0 0 0, Vec3.mk 0 0 2] [4, 4, 2, 1]
                [1, 1, 2] Mat3.identity false).origins.getD ci ⟨0, 0, 0⟩) <
          (Vec3.mk 0 0 3).distSq
            ((GeoA.Geometry.mk [Vec3.mk 0 0 0, Vec3.mk 0 0 2] [4, 4, 2, 1]
                [1, 1, 2] Mat3.identity false).origins.getD j ⟨0, 0, 0⟩)) ∧
      GeoA.getSliceIndex
          (GeoA.Geometry.mk [Vec3.mk 0 0 0, Vec3.mk 0 0 2] [4, 4, 2, 1]
            [1, 1, 2] Mat3.identity false) (Vec3.mk 0 0 3) =
        if (Mat3.sliceNormal
              (GeoA.Geometry.mk [Vec3.mk 0 0 0, Vec3.mk 0 0 2] [4, 4, 2, 1]
                  [1, 1, 2] Mat3.identity false).orientation).dotProduct
            ((Vec3.mk 0 0 3).minus
              ((GeoA.Geometry.mk [Vec3.mk 0 0 0, Vec3.mk 0 0 2] [4, 4, 2, 1]
                  [1, 1, 2] Mat3.identity false).origins.getD ci
                ⟨0, 0, 0⟩)) < 0
        then ci + 1
        else ci :=
  c3_getSliceIndex
    (GeoA.Geometry.mk [Vec3.mk 0 0 0, Vec3.mk 0 0 2] [4, 4, 2, 1] [1, 1, 2]
      Mat3.identity false) (Vec3.mk 0 0 3) (by simp)

/-- Cumulative strides ignore any dimensions above the queried one. -/
theorem getDimSize_append (l : List ℤ) (s : ℤ) (d : ℕ) (h : d ≤ l.length) :
    getDimSize (l ++ [s]) d = getDimSize l d := by
  unfold getDimSize
  rw [List.take_append_of_le_length h]

/-- The stride just past the last dimension is the full size product. -/
theorem getDimSize_length (l : List ℤ) : getDimSize l l.length = l.prod := by
  unfold getDimSize
  rw [List.take_length]

/-- Splitting off the top dimension of indexToOffset: the offset of the
extended index is the offset of the lower part plus the top component
times the product of the lower sizes. -/
theorem indexToOffset_concat (l : List ℤ) (s : ℤ) (idx : List ℤ) (v : ℤ)
    (hlen : idx.length = l.length) :
    indexToOffset (l ++ [s]) (idx ++ [v]) =
      indexToOffset l idx + v * l.prod := by
  unfold indexToOffset
  have h1 : (idx ++ [v]).length = idx.length + 1 := by simp
  rw [h1, List.range_succ, List.map_append, List.sum_append]
  congr 1
  · apply congrArg
    apply List.map_congr_left
    intro i hi
    have hi2 : i < idx.length := List.mem_range.mp hi
    rw [List.getD_append idx [v] 0 i hi2,
      getDimSize_append l s i (by omega)]
  · have h2 : (idx ++ [v]).getD idx.length 0 = v := by
      rw [List.getD_append_right idx [v] 0 idx.length (le_refl _)]
      simp
    have h3 : getDimSize (l ++ [s]) idx.length = l.prod := by
      rw [hlen, getDimSize_append l s l.length (le_refl _), getDimSize_length]
    simp [h2, h3]

/-- The descending offsetToIndex loop never looks at dimensions above
its start, so a size list extended at the top decodes identically. -/
theorem offsetToIndexLoop_append (l : List ℤ) (s : ℤ) :
    ∀ (i : ℕ), i ≤ l.length → ∀ off : ℤ,
      offsetToIndexLoop (l ++ [s]) i off = offsetToIndexLoop l i off := by
  intro i
  induction i with
  | zero => intro _ off; rfl
  | succ k ih =>
    intro hk off
    simp only [offsetToIndexLoop]
    rw [getDimSize_append l s (k + 1) hk, ih (by omega)]

/-- Offset encoding of an in-bounds index is in the range of the total
size, and decoding recovers the index exactly.  Induction peeling the
top dimension. -/
theorem offset_roundtrip_aux :
    ∀ (l idx : List ℤ),
      1 ≤ l.length → idx.length = l.length →
      (∀ d < l.length, 0 < l.getD d 0) →
      (∀ d < l.length, 0 ≤ idx.getD d 0 ∧ idx.getD d 0 < l.getD d 0) →
      (0 ≤ indexToOffset l idx ∧ indexToOffset l idx < l.prod) ∧
      offsetToIndex l (indexToOffset l idx) = idx := by
  intro l
  induction l using List.reverseRecOn with
  | nil => intro idx h1; simp at h1
  | append_singleton l s ih =>
    intro idx h1 hlen hpos hib
    have hidxne : idx ≠ [] := by
      intro h
      rw [h] at hlen
      simp at hlen
    rcases List.eq_nil_or_concat idx with h | ⟨idx2, v, hidx⟩
    · exact absurd h hidxne
    rw [List.concat_eq_append] at hidx
    subst hidx
    have hlen2 : idx2.length = l.length := by
      have := hlen
      simp at this
      omega
    by_cases hl : l = []
    · subst hl
      have hidx2 : idx2 = [] := List.length_eq_zero.mp (by simpa using hlen2)
      subst hidx2
      have hib0 := hib 0 (by simp)
      simp only [List.nil_append, List.getD_cons_zero] at hib0
      have hval : indexToOffset [s] [v] = v := by
        simp [indexToOffset, getDimSize, List.range_succ]
      simp only [List.nil_append, hval]
      refine ⟨⟨hib0.1, by simpa using hib0.2⟩, ?_⟩
      simp [offsetToIndex, offsetToIndexLoop]
    · have hl1 : 1 ≤ l.length := by
        have := List.length_pos.mpr hl
        omega
      have hpos2 : ∀ d < l.length, 0 < l.getD d 0 := by
        intro d hd
        have := hpos d (by simp; omega)
        rwa [List.getD_append l [s] 0 d hd] at this
      have hib2 : ∀ d < l.length,
          0 ≤ idx2.getD d 0 ∧ idx2.getD d 0 < l.getD d 0 := by
        intro d hd
        have := hib d (by simp; omega)
        rwa [List.getD_append l [s] 0 d hd,
          List.getD_append idx2 [v] 0 d (by omega)] at this
      obtain ⟨⟨hoff0, hofflt⟩, hround⟩ := ih idx2 hl1 hlen2 hpos2 hib2
      have hvb := hib l.length (by simp)
      rw [List.getD_append_right idx2 [v] 0 l.length (by omega),
        List.getD_append_right l [s] 0 l.length (le_refl _)] at hvb
      simp only [hlen2] at hvb
      norm_num at hvb
      have hP : (0 : ℤ) < l.prod := by
        apply List.prod_pos
        intro a ha
        obtain ⟨i, hi, hia⟩ := List.mem_iff_getElem.mp ha
        rw [← hia, ← List.getD_eq_getElem l 0 hi]
        exact hpos2 i hi
      have hoffeq := indexToOffset_concat l s idx2 v hlen2
      constructor
      · rw [hoffeq]
        constructor
        · have : 0 ≤ v * l.prod :=
            mul_nonneg hvb.1 (le_of_lt hP)
          omega
        · have hstep : indexToOffset l idx2 + v * l.prod <
              (v + 1) * l.prod := by
            have : (v + 1) * l.prod = v * l.prod + l.prod := by ring
            omega
          have hstep2 : (v + 1) * l.prod ≤ s * l.prod :=
            mul_le_mul_of_nonneg_right (by omega) (le_of_lt hP)
          have hprodcat : (l ++ [s]).prod = l.prod * s := by
            rw [List.prod_append]
            simp
          rw [hprodcat]
          have : s * l.prod = l.prod * s := by ring
          omega
      · obtain ⟨k, hk⟩ : ∃ k, l.length = k + 1 := ⟨l.length - 1, by omega⟩
        have hlen3 : (l ++ [s]).length - 1 = k + 1 := by simp [hk]
        unfold offsetToIndex
        rw [hlen3]
        simp only [offsetToIndexLoop]
        have hdim : getDimSize (l ++ [s]) (k + 1) = l.prod := by
          rw [getDimSize_append l s (k + 1) (by omega), ← hk,
            getDimSize_length]
        rw [hdim, hoffeq]
        have hfdiv : (indexToOffset l idx2 + v * l.prod).fdiv l.prod = v := by
          rw [Int.fdiv_eq_ediv _ (le_of_lt hP),
            Int.add_mul_ediv_right _ _ (ne_of_gt hP),
            Int.ediv_eq_zero_of_lt hoff0 hofflt]
          omega
        rw [hfdiv]
        have hsub : indexToOffset l idx2 + v * l.prod - v * l.prod =
            indexToOffset l idx2 := by ring
        rw [hsub]
        rw [offsetToIndexLoop_append l s k (by omega)]
        have hkk : k = l.length - 1 := by omega
        rw [hkk]
        simp only [offsetToIndex] at hround
        rw [← List.cons_append, hround]

/-- C2: for every in-bounds index (componentwise between zero and the
matching positive size, same rank as the size), decoding the encoded
offset with offsetToIndex recovers the index exactly, where
indexToOffset is the dot product of index components with the
cumulative strides and offsetToIndex decomposes from the highest
dimension down by successive integer division and remainder. -/
theorem c2_offset_roundtrip (sizeVals index : List ℤ)
    (h1 : 1 ≤ sizeVals.length) (hlen : index.length = sizeVals.length)
    (hpos : ∀ d < sizeVals.length, 0 < sizeVals.getD d 0)
    (hib : ∀ d < sizeVals.length,
      0 ≤ index.getD d 0 ∧ index.getD d 0 < sizeVals.getD d 0) :
    offsetToIndex sizeVals (indexToOffset sizeVals index) = index :=
  (offset_roundtrip_aux sizeVals index h1 hlen hpos hib).2

/-- C2, witness: the spec scenario, size (4,4,2,1): the index
(1,1,1,0) encodes to 1 + 4 + 16 = 21 and decodes back exactly. -/
theorem c2_witness :
    indexToOffset [4, 4, 2, 1] [1, 1, 1, 0] = 21 ∧
    offsetToIndex [4, 4, 2, 1] (indexToOffset [4, 4, 2, 1] [1, 1, 1, 0]) =
      [1, 1, 1, 0] :=
  ⟨by decide,
    c2_offset_roundtrip [4, 4, 2, 1] [1, 1, 1, 0] (by norm_num) (by norm_num)
      (by decide) (by decide)⟩

/-- JavaScript rounding is the identity on integers. -/
theorem jsRound_intCast (m : ℤ) : jsRound (m : ℚ) = m := by
  unfold jsRound
  rw [Int.floor_int_add]
  norm_num

/-- A rational with denominator one is an integer. -/
theorem rat_int_of_den_one (q : ℚ) (h : q.den = 1) : ∃ m : ℤ, q = (m : ℚ) :=
  ⟨q.num, ((Rat.den_eq_one_iff q).mp h).symm⟩

/-- Overwriting the first three entries of a list and then restoring
each of them to its original value gives back the list. -/
theorem set_chain_restore (l : List ℚ) (_h : 3 ≤ l.length) (a b c : ℚ) :
    ((((((l.set 0 a).set 1 b).set 2 c).set 0 (l.getD 0 0)).set 1
        (l.getD 1 0)).set 2 (l.getD 2 0)) = l := by
  apply List.ext_getElem
  · simp
  · intro n h1 h2
    simp only [List.getElem_set]
    split_ifs with e1 e2 e3 <;> try omega
    · subst e1
      exact (List.getD_eq_getElem l 0 h2).symm ▸ rfl
    · subst e2
      exact (List.getD_eq_getElem l 0 h2).symm ▸ rfl
    · subst e3
      exact (List.getD_eq_getElem l 0 h2).symm ▸ rfl
    · rfl

/-- C1: for every index of a geometry that is in bounds componentwise
(integer components between zero and the size entries, integer slice
count, positive spacing on the first three axes), worldToIndex inverts
indexToWorld exactly -- in the exact rational model the recovered index
equals the input index, which is a fortiori within the one-nanometer
tolerance of the claim -- and in particular the k-axis flip
(numberOfSlices - 1) - k applied by indexToWorld is exactly undone by
worldToIndex re-applying the flip after rounding.  Any components
beyond the first three pass through both conversions unchanged. -/
theorem c1_world_roundtrip (g : GeoA.Geometry) (index sp : List ℚ)
    (hsp : GeoA.getSpacingVals g = some sp)
    (hs0 : 0 < sp.getD 0 0) (hs1 : 0 < sp.getD 1 0) (hs2 : 0 < sp.getD 2 0)
    (hlen : 3 ≤ index.length)
    (hsize2 : (g.sizeVals.getD 2 0).den = 1)
    (hib : ∀ d < index.length, (index.getD d 0).den = 1 ∧
      0 ≤ index.getD d 0 ∧ index.getD d 0 < g.sizeVals.getD d 0) :
    (GeoA.indexToWorld g index).bind (GeoA.worldToIndex g) = some index := by
  obtain ⟨m0, hm0⟩ := rat_int_of_den_one _ (hib 0 (by omega)).1
  obtain ⟨m1, hm1⟩ := rat_int_of_den_one _ (hib 1 (by omega)).1
  obtain ⟨m2, hm2⟩ := rat_int_of_den_one _ (hib 2 (by omega)).1
  obtain ⟨n2, hn2⟩ := rat_int_of_den_one _ hsize2
  have h1 : GeoA.indexToWorld g index =
      some (((index.set 0
            ((GeoA.getOrigin g).x + index.getD 0 0 * sp.getD 0 0)).set 1
            ((GeoA.getOrigin g).y + index.getD 1 0 * sp.getD 1 0)).set 2
          ((GeoA.getOrigin g).z +
            GeoA.flipK (GeoA.getSizeVals g) (index.getD 2 0) *
              sp.getD 2 0)) := by
    unfold GeoA.indexToWorld
    rw [hsp]
    rfl
  rw [h1]
  show GeoA.worldToIndex g _ = some index
  unfold GeoA.worldToIndex
  rw [hsp]
  have hPlen : (((index.set 0
        ((GeoA.getOrigin g).x + index.getD 0 0 * sp.getD 0 0)).set 1
        ((GeoA.getOrigin g).y + index.getD 1 0 * sp.getD 1 0)).set 2
      ((GeoA.getOrigin g).z +
        GeoA.flipK (GeoA.getSizeVals g) (index.getD 2 0) *
          sp.getD 2 0)).length = index.length := by
    simp [List.length_set]
  have hP0 : (((index.set 0
        ((GeoA.getOrigin g).x + index.getD 0 0 * sp.getD 0 0)).set 1
        ((GeoA.getOrigin g).y + index.getD 1 0 * sp.getD 1 0)).set 2
      ((GeoA.getOrigin g).z +
        GeoA.flipK (GeoA.getSizeVals g) (index.getD 2 0) *
          sp.getD 2 0)).getD 0 0 =
      (GeoA.getOrigin g).x + index.getD 0 0 * sp.getD 0 0 := by
    rw [List.getD_eq_getElem _ _ (by omega)]
    simp [List.getElem_set, List.getD_eq_getElem, hlen,
      (by omega : 0 < index.length)]
  have hP1 : (((index.set 0
        ((GeoA.getOrigin g).x + index.getD 0 0 * sp.getD 0 0)).set 1
        ((GeoA.getOrigin g).y + index.getD 1 0 * sp.getD 1 0)).set 2
      ((GeoA.getOrigin g).z +
        GeoA.flipK (GeoA.getSizeVals g) (index.getD 2 0) *
          sp.getD 2 0)).getD 1 0 =
      (GeoA.getOrigin g).y + index.getD 1 0 * sp.getD 1 0 := by
    rw [List.getD_eq_getElem _ _ (by omega)]
    simp [List.getElem_set, List.getD_eq_getElem, hlen,
      (by omega : 1 < index.length)]
  have hP2 : (((index.set 0
        ((GeoA.getOrigin g).x + index.getD 0 0 * sp.getD 0 0)).set 1
        ((GeoA.getOrigin g).y + index.getD 1 0 * sp.getD 1 0)).set 2
      ((GeoA.getOrigin g).z +
        GeoA.flipK (GeoA.getSizeVals g) (index.getD 2 0) *
          sp.getD 2 0)).getD 2 0 =
      (GeoA.getOrigin g).z +
        GeoA.flipK (GeoA.getSizeVals g) (index.getD 2 0) * sp.getD 2 0 := by
    rw [List.getD_eq_getElem _ _ (by omega)]
    simp [List.getElem_set, List.getD_eq_getElem, hlen,
      (by omega : 2 < index.length)]
  simp only [Option.map_some']
  rw [Option.some_inj]
  rw [hP0, hP1, hP2]
  have harg0 : ((GeoA.getOrigin g).x + index.getD 0 0 * sp.getD 0 0 -
      (GeoA.getOrigin g).x) / sp.getD 0 0 = index.getD 0 0 := by
    rw [add_sub_cancel_left, mul_div_cancel_right₀ _ (ne_of_gt hs0)]
  have harg1 : ((GeoA.getOrigin g).y + index.getD 1 0 * sp.getD 1 0 -
      (GeoA.getOrigin g).y) / sp.getD 1 0 = index.getD 1 0 := by
    rw [add_sub_cancel_left, mul_div_cancel_right₀ _ (ne_of_gt hs1)]
  have harg2 : ((GeoA.getOrigin g).z +
      GeoA.flipK (GeoA.getSizeVals g) (index.getD 2 0) * sp.getD 2 0 -
      (GeoA.getOrigin g).z) / sp.getD 2 0 =
      GeoA.flipK (GeoA.getSizeVals g) (index.getD 2 0) := by
    rw [add_sub_cancel_left, mul_div_cancel_right₀ _ (ne_of_gt hs2)]
  rw [harg0, harg1, harg2]
  have hk : GeoA.flipK (GeoA.getSizeVals g) (index.getD 2 0) =
      ((n2 - 1 - m2 : ℤ) : ℚ) := by
    unfold GeoA.flipK GeoA.getSizeVals
    rw [hn2, hm2]
    push_cast
    ring
  rw [hm0, hm1, hk, jsRound_intCast, jsRound_intCast, jsRound_intCast]
  have hflip2 : GeoA.flipK (GeoA.getSizeVals g) ((n2 - 1 - m2 : ℤ) : ℚ) =
      index.getD 2 0 := by
    unfold GeoA.flipK GeoA.getSizeVals
    rw [hn2, hm2]
    push_cast
    ring
  rw [hflip2, ← hm0, ← hm1]
  exact set_chain_restore index hlen _ _ _

/-- C1, witness: the geometry with origin (0,0,0), size (4,4,2,1) and
unit spacing round-trips the index (1,1,1,0). -/
theorem c1_witness :
    (GeoA.indexToWorld
          (GeoA.Geometry.mk [Vec3.mk 0 0 0] [4, 4, 2, 1] [1, 1, 1]
            Mat3.identity false) [1, 1, 1, 0]).bind
        (GeoA.worldToIndex
          (GeoA.Geometry.mk [Vec3.mk 0 0 0] [4, 4, 2, 1] [1, 1, 1]
            Mat3.identity false)) =
      some [1, 1, 1, 0] := by
  apply c1_world_roundtrip
    (GeoA.Geometry.mk [Vec3.mk 0 0 0] [4, 4, 2, 1] [1, 1, 1] Mat3.identity
      false) [1, 1, 1, 0] [1, 1, 1] rfl
  · norm_num
  · norm_num
  · norm_num
  · norm_num
  · norm_num
  · intro d hd
    norm_num at hd
    interval_cases d <;> norm_num
